import Mathlib

/-!
Verification of the heatmap-decoding pipeline of
`src/gluon/gluoncv2/models/others/oth_simple_pose_resnet.py`
(`get_max_pred`, the sub-pixel refinement loop of `_get_final_preds`,
`get_affine_transform`, `transform_preds`, `_get_final_preds`, and
`SimplePoseResNet._get_deconv_cfg`).

Modelling conventions:
* Heatmap values and coordinates are rationals (`ℚ`), an exact model of the
  finite floating-point values the code manipulates.
* A single (image, joint) heatmap grid is a `List (List ℚ)` of `H` rows of
  `W` entries; a per-image stack of joint grids is a list of grids; a batch
  is a list of such stacks.  `reshape((N, J, -1))` on a `(N, J, H, W)`
  tensor concatenates each grid's rows in row-major (C) order, modelled by
  `List.flatten`.
* `mx.nd.argmax(·, 2)` returns the index of the first occurrence of the
  maximum along the flattened axis; `argmaxPair` computes that index
  together with the maximum value.
* The mask multiplication `preds *= (maxvals > 0)` zeroes a joint's
  coordinates exactly when its maximum is ≤ 0; it is modelled by the
  equivalent conditional.
* A rotation angle enters the code only through `np.sin`/`np.cos` inside
  `get_dir`; the embedding abstracts the angle by the pair `(sn, cs)` of its
  sine and cosine.  All callers in the file pass `rot = 0`, i.e. `(0, 1)`.
* `cv2.getAffineTransform` solves the exact 2×3 affine system mapping three
  source points to three destination points; `solveAffine` implements that
  solve by Cramer's rule over `ℚ` (the configurations in this file are
  non-degenerate, so the solve is exact and unique).
-/

set_option allowUnsafeReducibility true in
attribute [semireducible] Rat.add Rat.mul Rat.sub Rat.inv Rat.div Rat.ofScientific

/-- A 2D point with rational coordinates (a row of a numpy `(k, 2)` array). -/
structure Pt where
  x : ℚ
  y : ℚ
deriving DecidableEq

namespace Pt

/-- Componentwise addition, as numpy elementwise `+` on 2-vectors. -/
def add (a b : Pt) : Pt := ⟨a.x + b.x, a.y + b.y⟩

/-- Componentwise subtraction, as numpy elementwise `-` on 2-vectors. -/
def sub (a b : Pt) : Pt := ⟨a.x - b.x, a.y - b.y⟩

/-- Componentwise (Hadamard) product, as numpy elementwise `*` on 2-vectors. -/
def hmul (a b : Pt) : Pt := ⟨a.x * b.x, a.y * b.y⟩

end Pt

/-- First-occurrence argmax accumulator: scans the list left to right,
replacing the current best `(index, value)` only on a strictly larger value,
so ties keep the earliest index — the behaviour of `mx.nd.argmax`. -/
def argmaxAux : List ℚ → ℕ → ℕ × ℚ → ℕ × ℚ
  | [], _, best => best
  | v :: rest, i, best =>
      argmaxAux rest (i + 1) (if best.2 < v then (i, v) else best)

/-- Index of the first occurrence of the maximum, paired with the maximum
value (`mx.nd.argmax(·, 2)` and `mx.nd.max(·, 2)` on one flattened grid).
The empty list never arises from a well-formed tensor; it maps to `(0, 0)`. -/
def argmaxPair : List ℚ → ℕ × ℚ
  | [] => (0, 0)
  | v :: rest => argmaxAux rest 1 (0, v)

/-- The function `get_max_pred` restricted to a single (image, joint) pair, on the
already-flattened `H·W` grid: the flat argmax index `idx` is decoded to
`(idx % W, idx / W)` (the code's `% width` and `floor(· / width)` on the
float copy of the integral index), and the coordinate pair is multiplied by
the mask `maxval > 0`, i.e. forced to `(0, 0)` when `maxval ≤ 0`.  Returns
(coordinate, confidence). -/
def get_max_pred_grid (W : ℕ) (flat : List ℚ) : (ℚ × ℚ) × ℚ :=
  let p := argmaxPair flat
  let coord : ℚ × ℚ := (((p.1 % W : ℕ) : ℚ), ((p.1 / W : ℕ) : ℚ))
  (if 0 < p.2 then coord else (0, 0), p.2)

/-- The function `get_max_pred` on one image: the map over its joint grids, each grid
flattened in row-major order exactly as `reshape((N, J, -1))` does. -/
def get_max_pred_img (W : ℕ) (img : List (List (List ℚ))) :
    List ((ℚ × ℚ) × ℚ) :=
  img.map (fun grid => get_max_pred_grid W grid.flatten)

/-- The sign function `mx.nd.sign`: `1` on positives, `-1` on negatives, `0` at `0`. -/
def qsign (q : ℚ) : ℚ := if 0 < q then 1 else if q < 0 then -1 else 0

/-- Entry `hm[r][c]` of a grid for integer indices, as used by the
refinement loop (its guard keeps both indices inside the grid, so the
out-of-range default is never read under that guard). -/
def gridAt (hm : List (List ℚ)) (r c : ℤ) : ℚ :=
  (hm.getD r.toNat []).getD c.toNat 0

/-- The post-processing loop body of `_get_final_preds` for one joint:
round the coordinate to `(px, py) = ⌊coord + 0.5⌋`; if
`1 < px < W−1` and `1 < py < H−1`, add `0.25 · sign` of the horizontal and
vertical central differences of the heatmap at `(px, py)` to the respective
coordinate; otherwise return the coordinate unchanged. -/
def refine_subpixel (H W : ℕ) (hm : List (List ℚ)) (c : ℚ × ℚ) : ℚ × ℚ :=
  let px : ℤ := ⌊c.1 + 1/2⌋
  let py : ℤ := ⌊c.2 + 1/2⌋
  if 1 < px ∧ px < (W : ℤ) - 1 ∧ 1 < py ∧ py < (H : ℤ) - 1 then
    let dx := gridAt hm py (px + 1) - gridAt hm py (px - 1)
    let dy := gridAt hm (py + 1) px - gridAt hm (py - 1) px
    (c.1 + qsign dx * (1/4), c.2 + qsign dy * (1/4))
  else c

/-- Construction of `get_3rd_point`: completes a right angle,
`b + [-(a-b).y, (a-b).x]`. -/
def get_3rd_point (a b : Pt) : Pt :=
  let direct := a.sub b
  b.add ⟨-direct.y, direct.x⟩

/-- Construction of `get_dir`: rotation of `src_point` by the angle whose
sine and cosine are `sn` and `cs` (`np.sin(rot_rad)`, `np.cos(rot_rad)`). -/
def get_dir (src_point : Pt) (sn cs : ℚ) : Pt :=
  ⟨src_point.x * cs - src_point.y * sn, src_point.x * sn + src_point.y * cs⟩

/-- A 2×3 affine matrix `[[a, b, c], [d, e, f]]`, the return value of
`cv2.getAffineTransform`. -/
structure Affine where
  a : ℚ
  b : ℚ
  c : ℚ
  d : ℚ
  e : ℚ
  f : ℚ
deriving DecidableEq

/-- Determinant of a 3×3 matrix given row by row. -/
def det3 (a1 a2 a3 b1 b2 b3 c1 c2 c3 : ℚ) : ℚ :=
  a1 * (b2 * c3 - b3 * c2) - a2 * (b1 * c3 - b3 * c1) + a3 * (b1 * c2 - b2 * c1)

/-- Model of `cv2.getAffineTransform`: the unique 2×3 affine matrix mapping
the three source points `s0 s1 s2` to the three destination points
`t0 t1 t2`, computed by Cramer's rule (exact over `ℚ` whenever the source
points are affinely independent, which holds for every configuration built
by `get_affine_transform` from a nonzero scale and output size). -/
def solveAffine (s0 s1 s2 t0 t1 t2 : Pt) : Affine :=
  let D := det3 s0.x s0.y 1 s1.x s1.y 1 s2.x s2.y 1
  { a := det3 t0.x s0.y 1 t1.x s1.y 1 t2.x s2.y 1 / D
    b := det3 s0.x t0.x 1 s1.x t1.x 1 s2.x t2.x 1 / D
    c := det3 s0.x s0.y t0.x s1.x s1.y t1.x s2.x s2.y t2.x / D
    d := det3 t0.y s0.y 1 t1.y s1.y 1 t2.y s2.y 1 / D
    e := det3 s0.x t0.y 1 s1.x t1.y 1 s2.x t2.y 1 / D
    f := det3 s0.x s0.y t0.y s1.x s1.y t1.y s2.x s2.y t2.y / D }

/-- Application `affine_transform`: multiply the 2×3 matrix `t` with the
homogeneous column `[pt.1, pt.2, 1]` and keep the two resulting entries. -/
def affine_transform (pt : ℚ × ℚ) (t : Affine) : ℚ × ℚ :=
  (t.a * pt.1 + t.b * pt.2 + t.c, t.d * pt.1 + t.e * pt.2 + t.f)

/-- First source reference point of `get_affine_transform`:
`src[0, :] = center + scale_tmp * shift`. -/
def src_point0 (center scale shift : Pt) : Pt :=
  center.add (scale.hmul shift)

/-- Second source reference point of `get_affine_transform`:
`src[1, :] = center + src_dir + scale_tmp * shift` where
`src_dir = get_dir([0, src_w * -0.5], rot_rad)` and `src_w = scale[0]`
(the FIRST scale component). -/
def src_point1 (center scale : Pt) (sn cs : ℚ) (shift : Pt) : Pt :=
  (center.add (get_dir ⟨0, scale.x * (-1/2)⟩ sn cs)).add (scale.hmul shift)

/-- Modelled from the spec: the second source reference point as the spec
sentence words it, `center + rotate(scale × [0, -0.5], rotation) + scale·shift`
with `scale × [0, -0.5]` the elementwise product `[0, -0.5·scale_y]`
(depending on the SECOND scale component); rotation is `get_dir`.
Stated only to compare with the source's `src_point1`. -/
def src_point1_spec (center scale : Pt) (sn cs : ℚ) (shift : Pt) : Pt :=
  (center.add (get_dir (scale.hmul ⟨0, -1/2⟩) sn cs)).add (scale.hmul shift)

/-- Construction of `get_affine_transform`, with the rotation angle
`rot_rad = π·rot/180` abstracted by `(sn, cs) = (sin rot_rad, cos rot_rad)`
and the scale already a 2-vector (the scalar-broadcast branch only turns a
scalar into `[scale, scale]`).  Builds the three source and three
destination reference points and solves the affine system in the direction
selected by `inv`. -/
def get_affine_transform (center scale : Pt) (sn cs : ℚ) (output_size : Pt)
    (shift : Pt) (inv : Bool) : Affine :=
  let dst_w := output_size.x
  let dst_h := output_size.y
  let dst_dir : Pt := ⟨0, dst_w * (-1/2)⟩
  let src0 := src_point0 center scale shift
  let src1 := src_point1 center scale sn cs shift
  let dst0 : Pt := ⟨dst_w * (1/2), dst_h * (1/2)⟩
  let dst1 := dst0.add dst_dir
  let src2 := get_3rd_point src0 src1
  let dst2 := get_3rd_point dst0 dst1
  if inv then solveAffine dst0 dst1 dst2 src0 src1 src2
  else solveAffine src0 src1 src2 dst0 dst1 dst2

/-- The function `transform_preds`: build the inverse affine transform for
this image (`rot = 0`, so `(sn, cs) = (0, 1)`; default `shift = (0, 0)`;
`inv = 1`) and apply it to each joint's coordinate row. -/
def transform_preds (coords : List (ℚ × ℚ)) (center scale : Pt)
    (output_size : Pt) : List (ℚ × ℚ) :=
  let trans := get_affine_transform center scale 0 1 output_size ⟨0, 0⟩ true
  coords.map (fun c => affine_transform c trans)

/-- The refinement loop of `_get_final_preds` over the joints of one image:
each joint's coordinate is refined against that joint's own heatmap grid. -/
def refine_img (H W : ℕ) (img : List (List (List ℚ))) (cs : List (ℚ × ℚ)) :
    List (ℚ × ℚ) :=
  List.zipWith (refine_subpixel H W) img cs

/-- The function `_get_final_preds`: locate the peaks (`get_max_pred`),
refine each coordinate sub-pixel-wise against its own grid, then transform
each image's coordinates to image space with that image's center and scale
and `output_size = [heatmap_width, heatmap_height]`.  Returns
(predictions, confidences); the confidences are `get_max_pred`'s maxima,
untouched by the later phases. -/
def get_final_preds (H W : ℕ) (hms : List (List (List (List ℚ))))
    (centers scales : List Pt) : List (List (ℚ × ℚ)) × List (List ℚ) :=
  let located := hms.map (get_max_pred_img W)
  let coords := List.zipWith (refine_img H W) hms
    (located.map (fun lc => lc.map Prod.fst))
  let maxvals := located.map (fun lc => lc.map Prod.snd)
  let preds := List.zipWith
    (fun cs_i (p : Pt × Pt) => transform_preds cs_i p.1 p.2 ⟨(W : ℚ), (H : ℚ)⟩)
    coords (centers.zip scales)
  (preds, maxvals)

/-- Dynamic-shape model of `get_max_pred` for the error-handling analysis:
the input tensor is a shape list together with its row-major data.  Reading
`batch_heatmaps.shape[3]` on a tensor of rank below 4 raises an index
error; `reshape((batch_size, num_joints, -1))` fails when
`batch_size * num_joints` is zero or does not divide the total size; the
per-pair argmax fails on an empty reduction axis.  No other step can fail,
and no rank check of any kind is performed: any rank ≥ 4 shape whose sizes
fit is processed, with axis 3 taken as the width. -/
def get_max_pred_dyn (shape : List ℕ) (data : List ℚ) :
    Except String (List (List ((ℚ × ℚ) × ℚ))) :=
  match shape with
  | batch_size :: num_joints :: _ :: width :: _ =>
    if batch_size * num_joints = 0 then .error "reshape: cannot infer -1 axis"
    else if data.length % (batch_size * num_joints) ≠ 0 then
      .error "reshape: size mismatch"
    else
      let L := data.length / (batch_size * num_joints)
      if L = 0 then .error "argmax: empty axis"
      else
        .ok ((List.range batch_size).map (fun n =>
          (List.range num_joints).map (fun p =>
            get_max_pred_grid width
              ((data.drop ((n * num_joints + p) * L)).take L))))
  | _ => .error "IndexError: shape[3]"

/-- The mutable buffers visible to one `_get_final_preds` call: the three
inputs (`batch_heatmaps`, `center`, `scale`) and the arrays the call
allocates and writes (`coords`/`maxvals` from `get_max_pred`, and `preds`,
whose rows `transform_preds` fills through its scratch `target_coords`). -/
structure DecodeState where
  heatmaps : List (List (List (List ℚ)))
  centers : List Pt
  scales : List Pt
  coords : List (List (ℚ × ℚ))
  maxvals : List (List ℚ)
  preds : List (List (ℚ × ℚ))

/-- Phase 1 of `_get_final_preds` as a state transformation: the
`get_max_pred` call allocates and fills `coords` and `maxvals`. -/
def decode_step1 (W : ℕ) (s : DecodeState) : DecodeState :=
  let located := s.heatmaps.map (get_max_pred_img W)
  { s with coords := located.map (fun lc => lc.map Prod.fst),
           maxvals := located.map (fun lc => lc.map Prod.snd) }

/-- Phase 2 of `_get_final_preds` as a state transformation: the
post-processing double loop updates `coords[n][p]` in place, reading only
`heatmaps`. -/
def decode_step2 (H W : ℕ) (s : DecodeState) : DecodeState :=
  { s with coords := List.zipWith (refine_img H W) s.heatmaps s.coords }

/-- Phase 3 of `_get_final_preds` as a state transformation: the
transform-back loop writes each row of the freshly allocated `preds`. -/
def decode_step3 (H W : ℕ) (s : DecodeState) : DecodeState :=
  { s with preds := (List.zipWith
      (fun cs_i (p : Pt × Pt) => transform_preds cs_i p.1 p.2 ⟨(W : ℚ), (H : ℚ)⟩)
      s.coords (s.centers.zip s.scales)) }

/-- The full `_get_final_preds` call as the three state transformations in
program order. -/
def decode_run (H W : ℕ) (s : DecodeState) : DecodeState :=
  decode_step3 H W (decode_step2 H W (decode_step1 W s))

/-- The method `SimplePoseResNet._get_deconv_cfg`: kernel sizes 4, 3 and 2
select `(padding, output_padding)` of `(1, 0)`, `(1, 1)` and `(0, 0)`; any
other kernel size reaches the `return` with the local variables `padding`
and `output_padding` unbound, raising a `NameError` — modelled as `none`. -/
def get_deconv_cfg (deconv_kernel : ℤ) : Option (ℤ × ℤ × ℤ) :=
  if deconv_kernel = 4 then some (deconv_kernel, 1, 0)
  else if deconv_kernel = 3 then some (deconv_kernel, 1, 1)
  else if deconv_kernel = 2 then some (deconv_kernel, 0, 0)
  else none

/-- The running best value never decreases along the scan. -/
theorem argmaxAux_snd_ge (l : List ℚ) :
    ∀ (i : ℕ) (b : ℕ × ℚ), b.2 ≤ (argmaxAux l i b).2 := by
  induction l with
  | nil => intro i b; exact le_refl _
  | cons v rest ih =>
    intro i b
    show b.2 ≤ (argmaxAux rest (i + 1) (if b.2 < v then (i, v) else b)).2
    by_cases h : b.2 < v
    · rw [if_pos h]
      exact le_trans (le_of_lt h) (ih (i + 1) (i, v))
    · rw [if_neg h]
      exact ih (i + 1) b

/-- Every scanned element is bounded by the final best value. -/
theorem argmaxAux_mem_le (l : List ℚ) :
    ∀ (i : ℕ) (b : ℕ × ℚ) (x : ℚ), x ∈ l → x ≤ (argmaxAux l i b).2 := by
  induction l with
  | nil => intro i b x hx; cases hx
  | cons v rest ih =>
    intro i b x hx
    show x ≤ (argmaxAux rest (i + 1) (if b.2 < v then (i, v) else b)).2
    rcases List.mem_cons.1 hx with rfl | hx
    · by_cases h : b.2 < x
      · rw [if_pos h]
        exact argmaxAux_snd_ge rest (i + 1) (i, x)
      · rw [if_neg h]
        exact le_trans (le_of_not_lt h) (argmaxAux_snd_ge rest (i + 1) b)
    · by_cases h : b.2 < v
      · rw [if_pos h]; exact ih (i + 1) (i, v) x hx
      · rw [if_neg h]; exact ih (i + 1) b x hx

/-- Case analysis of the scan: either the initial best survives and bounds
every element, or the result sits at a position `k` of the scanned list,
its value is the element there, it strictly exceeds the initial best, and
every element strictly before position `k` is strictly below it (the
first-occurrence tie-break). -/
theorem argmaxAux_cases (l : List ℚ) :
    ∀ (i : ℕ) (b : ℕ × ℚ),
      (argmaxAux l i b = b ∧ ∀ x ∈ l, x ≤ b.2) ∨
      (∃ k, k < l.length ∧ (argmaxAux l i b).1 = i + k ∧
        l.getD k 0 = (argmaxAux l i b).2 ∧ b.2 < (argmaxAux l i b).2 ∧
        ∀ j < k, l.getD j 0 < (argmaxAux l i b).2) := by
  induction l with
  | nil =>
    intro i b
    left
    exact ⟨rfl, by intro x hx; cases hx⟩
  | cons v rest ih =>
    intro i b
    by_cases h : b.2 < v
    · right
      have e : argmaxAux (v :: rest) i b = argmaxAux rest (i + 1) (i, v) := by
        show argmaxAux rest (i + 1) (if b.2 < v then (i, v) else b) = _
        rw [if_pos h]
      rcases ih (i + 1) (i, v) with ⟨heq, hle⟩ | ⟨k, hk, hidx, hval, hlt, hfirst⟩
      · refine ⟨0, Nat.succ_pos _, ?_, ?_, ?_, ?_⟩
        · rw [e, heq]; rfl
        · rw [e, heq]; rfl
        · rw [e, heq]; exact h
        · intro j hj; cases hj
      · refine ⟨k + 1, Nat.succ_lt_succ hk, ?_, ?_, ?_, ?_⟩
        · rw [e, hidx]; omega
        · rw [e]; exact hval
        · rw [e]; exact lt_trans h hlt
        · intro j hj
          rw [e]
          match j, hj with
          | 0, _ => exact hlt
          | j' + 1, hj =>
            exact hfirst j' (Nat.lt_of_succ_lt_succ hj)
    · have e : argmaxAux (v :: rest) i b = argmaxAux rest (i + 1) b := by
        show argmaxAux rest (i + 1) (if b.2 < v then (i, v) else b) = _
        rw [if_neg h]
      rcases ih (i + 1) b with ⟨heq, hle⟩ | ⟨k, hk, hidx, hval, hlt, hfirst⟩
      · left
        refine ⟨e.trans heq, ?_⟩
        intro x hx
        rcases List.mem_cons.1 hx with rfl | hx
        · exact le_of_not_lt h
        · exact hle x hx
      · right
        refine ⟨k + 1, Nat.succ_lt_succ hk, ?_, ?_, ?_, ?_⟩
        · rw [e, hidx]; omega
        · rw [e]; exact hval
        · rw [e]; exact hlt
        · intro j hj
          rw [e]
          match j, hj with
          | 0, _ => exact lt_of_le_of_lt (le_of_not_lt h) hlt
          | j' + 1, hj =>
            exact hfirst j' (Nat.lt_of_succ_lt_succ hj)

/-- Specification of `argmaxPair` on a nonempty list: the returned index is
in range, the value there is the returned value, every earlier element is
strictly smaller (first occurrence in scan order), and every element is
bounded by the returned value (it is the maximum). -/
theorem argmaxPair_spec (l : List ℚ) (hne : l ≠ []) :
    (argmaxPair l).1 < l.length ∧
    l.getD (argmaxPair l).1 0 = (argmaxPair l).2 ∧
    (∀ j < (argmaxPair l).1, l.getD j 0 < (argmaxPair l).2) ∧
    (∀ j < l.length, l.getD j 0 ≤ (argmaxPair l).2) := by
  match l, hne with
  | v :: rest, _ =>
    have e : argmaxPair (v :: rest) = argmaxAux rest 1 (0, v) := rfl
    rcases argmaxAux_cases rest 1 (0, v) with ⟨heq, hle⟩ | ⟨k, hk, hidx, hval, hlt, hfirst⟩
    · rw [e, heq]
      refine ⟨Nat.succ_pos _, rfl, ?_, ?_⟩
      · intro j hj; cases hj
      · intro j hj
        match j, hj with
        | 0, _ => exact le_refl _
        | j' + 1, hj =>
          have hj' : j' < rest.length := Nat.lt_of_succ_lt_succ hj
          have : rest.getD j' 0 ∈ rest := by
            rw [List.getD_eq_getElem rest 0 hj']
            exact List.getElem_mem hj'
          exact hle _ this
    · rw [e]
      have hidx' : (argmaxAux rest 1 (0, v)).1 = k + 1 := by omega
      refine ⟨?_, ?_, ?_, ?_⟩
      · rw [hidx']
        simpa using Nat.succ_lt_succ hk
      · rw [hidx']
        show rest.getD k 0 = _
        exact hval
      · intro j hj
        rw [hidx'] at hj
        match j, hj with
        | 0, _ => exact hlt
        | j' + 1, hj =>
          show rest.getD j' 0 < _
          exact hfirst j' (by omega)
      · intro j hj
        match j, hj with
        | 0, _ => exact le_of_lt hlt
        | j' + 1, hj =>
          show rest.getD j' 0 ≤ _
          have hj' : j' < rest.length := Nat.lt_of_succ_lt_succ hj
          have : rest.getD j' 0 ∈ rest := by
            rw [List.getD_eq_getElem rest 0 hj']
            exact List.getElem_mem hj'
          exact argmaxAux_mem_le rest 1 (0, v) _ this

/-- C1, counterexample to the unconditional claim: on the 1×2 grid
`[[-1, -1/2]]` (all entries finite), the first argmax index of the
flattened grid is 1 with maximum value −1/2, so the claimed coordinate is
`(1 % 2, 1 / 2) = (1, 0)`; but the code masks the non-positive confidence
and returns coordinate `(0, 0)` instead. -/
theorem get_max_pred_first_peak_cex :
    argmaxPair ([[-1, -1/2]] : List (List ℚ)).flatten = (1, -1/2) ∧
    (get_max_pred_grid 2 ([[-1, -1/2]] : List (List ℚ)).flatten).1 ≠
      (((1 % 2 : ℕ) : ℚ), ((1 / 2 : ℕ) : ℚ)) := by
  constructor
  · decide
  · decide

/-- C1 (amended): provided the maximum of the flattened grid is positive,
`get_max_pred` returns coordinate `(i % W, i / W)` and confidence `m`,
where `i` is the first index in row-major scan order at which the
flattened grid attains its maximum value `m`: `i` is in range, the value
at `i` is `m`, every element strictly before `i` is strictly below `m`,
and every element is at most `m`. -/
theorem get_max_pred_first_peak (W : ℕ) (grid : List (List ℚ))
    (hpos : 0 < (argmaxPair grid.flatten).2) :
    get_max_pred_grid W grid.flatten =
      (((((argmaxPair grid.flatten).1 % W : ℕ) : ℚ),
        (((argmaxPair grid.flatten).1 / W : ℕ) : ℚ)),
       (argmaxPair grid.flatten).2) ∧
    (argmaxPair grid.flatten).1 < grid.flatten.length ∧
    grid.flatten.getD (argmaxPair grid.flatten).1 0 = (argmaxPair grid.flatten).2 ∧
    (∀ j < (argmaxPair grid.flatten).1,
      grid.flatten.getD j 0 < (argmaxPair grid.flatten).2) ∧
    (∀ j < grid.flatten.length,
      grid.flatten.getD j 0 ≤ (argmaxPair grid.flatten).2) := by
  have hne : grid.flatten ≠ [] := by
    intro h
    rw [h] at hpos
    simp [argmaxPair] at hpos
  have hs := argmaxPair_spec grid.flatten hne
  refine ⟨?_, hs.1, hs.2.1, hs.2.2.1, hs.2.2.2⟩
  simp only [get_max_pred_grid, if_pos hpos]

/-- C1 witness: the one-hot 2×2 grid `[[0, 0], [0, 1]]` has positive
maximum; its flat argmax index is 3, decoded to coordinate
`(3 % 2, 3 / 2) = (1, 1)` with confidence 1. -/
theorem get_max_pred_first_peak_witness :
    0 < (argmaxPair ([[0, 0], [0, 1]] : List (List ℚ)).flatten).2 ∧
    get_max_pred_grid 2 ([[0, 0], [0, 1]] : List (List ℚ)).flatten = ((1, 1), 1) :=
  ⟨by decide,
   ((get_max_pred_first_peak 2 [[0, 0], [0, 1]] (by decide)).1).trans (by decide)⟩

/-- C2: a joint whose maximum heatmap value is ≤ 0 has its returned
coordinate forced to `(0, 0)`; in particular on an all-zero grid the
returned confidence is 0 and the coordinate is `(0, 0)`. -/
theorem get_max_pred_mask (W : ℕ) (flat : List ℚ) :
    ((get_max_pred_grid W flat).2 ≤ 0 → (get_max_pred_grid W flat).1 = (0, 0)) ∧
    (∀ flat0 : List ℚ, (∀ x ∈ flat0, x = (0 : ℚ)) →
      get_max_pred_grid W flat0 = ((0, 0), 0)) := by
  constructor
  · intro hle
    have hnot : ¬ 0 < (argmaxPair flat).2 := not_lt.2 hle
    simp only [get_max_pred_grid, if_neg hnot]
  · intro flat0 h0
    have hz : (argmaxPair flat0).2 = 0 := by
      match flat0, h0 with
      | [], _ => rfl
      | v :: rest, h0 =>
        have hv : v = 0 := h0 v (List.mem_cons_self v rest)
        show (argmaxAux rest 1 (0, v)).2 = 0
        rcases argmaxAux_cases rest 1 (0, v) with ⟨heq, _⟩ | ⟨k, hk, _, hval, hlt, _⟩
        · rw [heq]; exact hv
        · exfalso
          have hmem : rest.getD k 0 ∈ rest := by
            rw [List.getD_eq_getElem rest 0 hk]
            exact List.getElem_mem hk
          have h1 : rest.getD k 0 = 0 := h0 _ (List.mem_cons_of_mem v hmem)
          have h2 : (argmaxAux rest 1 (0, v)).2 = 0 := by rw [← hval, h1]
          rw [h2] at hlt
          have : v < (0 : ℚ) := hlt
          rw [hv] at this
          exact absurd this (lt_irrefl 0)
    have hnot : ¬ 0 < (argmaxPair flat0).2 := by
      rw [hz]
      exact lt_irrefl 0
    simp only [get_max_pred_grid, if_neg hnot, hz]
    norm_num

/-- C2 witness: the grid `[-1]` has confidence −1 ≤ 0 and coordinate
masked to `(0, 0)`; the all-zero grid `[0, 0, 0]` yields `((0, 0), 0)`. -/
theorem get_max_pred_mask_witness :
    (get_max_pred_grid 2 [-1]).2 ≤ 0 ∧
    (get_max_pred_grid 2 [-1]).1 = (0, 0) ∧
    get_max_pred_grid 3 [0, 0, 0] = ((0, 0), 0) :=
  ⟨by decide,
   (get_max_pred_mask 2 [-1]).1 (by decide),
   (get_max_pred_mask 3 [0, 0, 0]).2 [0, 0, 0] (by decide)⟩

/-- C3: with `(px, py) = ⌊coord + 0.5⌋`, a coordinate whose rounded pixel
is strictly interior (`1 < px < W−1`, `1 < py < H−1`) is shifted by
`0.25 · sign` of the central differences on each axis; any other
coordinate (borders included) is returned exactly unchanged; and equal
neighbor values on both axes (zero differences) also leave the coordinate
unchanged. -/
theorem refine_subpixel_spec (H W : ℕ) (hm : List (List ℚ)) (c : ℚ × ℚ) :
    (((1 : ℤ) < ⌊c.1 + 1/2⌋ ∧ ⌊c.1 + 1/2⌋ < (W : ℤ) - 1 ∧
      (1 : ℤ) < ⌊c.2 + 1/2⌋ ∧ ⌊c.2 + 1/2⌋ < (H : ℤ) - 1) →
      refine_subpixel H W hm c =
        (c.1 + qsign (gridAt hm ⌊c.2 + 1/2⌋ (⌊c.1 + 1/2⌋ + 1) -
            gridAt hm ⌊c.2 + 1/2⌋ (⌊c.1 + 1/2⌋ - 1)) * (1/4),
         c.2 + qsign (gridAt hm (⌊c.2 + 1/2⌋ + 1) ⌊c.1 + 1/2⌋ -
            gridAt hm (⌊c.2 + 1/2⌋ - 1) ⌊c.1 + 1/2⌋) * (1/4))) ∧
    ((¬ ((1 : ℤ) < ⌊c.1 + 1/2⌋ ∧ ⌊c.1 + 1/2⌋ < (W : ℤ) - 1 ∧
      (1 : ℤ) < ⌊c.2 + 1/2⌋ ∧ ⌊c.2 + 1/2⌋ < (H : ℤ) - 1)) →
      refine_subpixel H W hm c = c) ∧
    ((gridAt hm ⌊c.2 + 1/2⌋ (⌊c.1 + 1/2⌋ + 1) =
        gridAt hm ⌊c.2 + 1/2⌋ (⌊c.1 + 1/2⌋ - 1) ∧
      gridAt hm (⌊c.2 + 1/2⌋ + 1) ⌊c.1 + 1/2⌋ =
        gridAt hm (⌊c.2 + 1/2⌋ - 1) ⌊c.1 + 1/2⌋) →
      refine_subpixel H W hm c = c) := by
  refine ⟨?_, ?_, ?_⟩
  · intro hin
    simp only [refine_subpixel, if_pos hin]
  · intro hout
    simp only [refine_subpixel, if_neg hout]
  · rintro ⟨hx, hy⟩
    by_cases hin : ((1 : ℤ) < ⌊c.1 + 1/2⌋ ∧ ⌊c.1 + 1/2⌋ < (W : ℤ) - 1 ∧
      (1 : ℤ) < ⌊c.2 + 1/2⌋ ∧ ⌊c.2 + 1/2⌋ < (H : ℤ) - 1)
    · simp only [refine_subpixel, if_pos hin, hx, hy, sub_self]
      simp [qsign]
    · simp only [refine_subpixel, if_neg hin]

/-- C3 witness: in a 5×5 grid, the coordinate `(2, 2)` rounds to the
interior pixel `(2, 2)` and is shifted by `+0.25` in x for a rightward
gradient; the border coordinate `(0, 0)` is unchanged; in a 4×4 all-zero
grid the interior coordinate `(2, 2)` has symmetric (zero) differences and
is unchanged. -/
theorem refine_subpixel_spec_witness :
    refine_subpixel 5 5
      [[0,0,0,0,0],[0,0,0,0,0],[0,0,1,2,0],[0,0,0,0,0],[0,0,0,0,0]]
      (2, 2) = (9/4, 2) ∧
    refine_subpixel 5 5
      [[0,0,0,0,0],[0,0,0,0,0],[0,0,1,2,0],[0,0,0,0,0],[0,0,0,0,0]]
      (0, 0) = (0, 0) ∧
    refine_subpixel 4 4 [[0,0,0,0],[0,0,0,0],[0,0,0,0],[0,0,0,0]]
      (2, 2) = (2, 2) :=
  ⟨((refine_subpixel_spec 5 5
      [[0,0,0,0,0],[0,0,0,0,0],[0,0,1,2,0],[0,0,0,0,0],[0,0,0,0,0]]
      (2, 2)).1 (by decide)).trans (by decide),
   (refine_subpixel_spec 5 5
      [[0,0,0,0,0],[0,0,0,0,0],[0,0,1,2,0],[0,0,0,0,0],[0,0,0,0,0]]
      (0, 0)).2.1 (by decide),
   (refine_subpixel_spec 4 4 [[0,0,0,0],[0,0,0,0],[0,0,0,0],[0,0,0,0]]
      (2, 2)).2.2 (by decide)⟩

/-- C4, counterexample: at center (0,0), scale (2,4), rotation 0
(`(sn, cs) = (0, 1)`) and zero shift, the spec's formula
`center + rotate(scale × [0, -0.5], rotation) + scale·shift` evaluates to
(0, −2) — driven by the second scale component 4 — but the code's second
source reference point is (0, −1), driven by the first scale component 2. -/
theorem src_point1_cex :
    src_point1_spec ⟨0, 0⟩ ⟨2, 4⟩ 0 1 ⟨0, 0⟩ = ⟨0, -2⟩ ∧
    src_point1 ⟨0, 0⟩ ⟨2, 4⟩ 0 1 ⟨0, 0⟩ = ⟨0, -1⟩ ∧
    src_point1 ⟨0, 0⟩ ⟨2, 4⟩ 0 1 ⟨0, 0⟩ ≠ src_point1_spec ⟨0, 0⟩ ⟨2, 4⟩ 0 1 ⟨0, 0⟩ := by
  refine ⟨by decide, by decide, by decide⟩

/-- C4 (amended): the second source reference point is
`center + rotate([0, -0.5·scale_x], rotation) + scale·shift` — it depends
on the scale's FIRST component (not the second): spelled out in
coordinates, and invariant under any change of the second scale component
(zero shift). -/
theorem src_point1_formula (center scale : Pt) (sn cs : ℚ) (shift : Pt) :
    src_point1 center scale sn cs shift =
      ⟨center.x - scale.x * (-1/2) * sn + scale.x * shift.x,
       center.y + scale.x * (-1/2) * cs + scale.y * shift.y⟩ ∧
    ∀ sy : ℚ, src_point1 center ⟨scale.x, sy⟩ sn cs ⟨0, 0⟩ =
      src_point1 center scale sn cs ⟨0, 0⟩ := by
  constructor
  · simp only [src_point1, get_dir, Pt.add, Pt.hmul, Pt.mk.injEq]
    constructor <;> ring
  · intro sy
    simp only [src_point1, get_dir, Pt.add, Pt.hmul, Pt.mk.injEq]
    constructor <;> ring_nf

/-- C5: the decode pipeline equals: locate the peaks with `get_max_pred`,
refine each joint's coordinate with `refine_subpixel` against its own
grid, then for each image apply the inverse affine transform
`get_affine_transform(center, scale, rot = 0, output_size = (W, H),
shift = (0, 0), inv = true)` to each joint's homogeneous coordinate; the
confidences are the raw `get_max_pred` maxima, unchanged. -/
theorem get_final_preds_pipeline (H W : ℕ) (hms : List (List (List (List ℚ))))
    (centers scales : List Pt) :
    get_final_preds H W hms centers scales =
      (List.zipWith
        (fun cs_i (p : Pt × Pt) =>
          cs_i.map (fun c =>
            affine_transform c
              (get_affine_transform p.1 p.2 0 1 ⟨(W : ℚ), (H : ℚ)⟩ ⟨0, 0⟩ true)))
        (List.zipWith (fun img lc => List.zipWith (refine_subpixel H W) img lc)
          hms ((hms.map (get_max_pred_img W)).map (fun lc => lc.map Prod.fst)))
        (centers.zip scales),
       (hms.map (get_max_pred_img W)).map (fun lc => lc.map Prod.snd)) := rfl

/-- C6: with center (48, 64), scale (96, 128), rotation 0 and output size
(48, 64), the forward transform followed by the inverse transform returns
every point to itself exactly over `ℚ`, in particular within the claimed
1e-3 tolerance on each axis. -/
theorem affine_roundtrip (p : ℚ × ℚ) :
    |(affine_transform
        (affine_transform p
          (get_affine_transform ⟨48, 64⟩ ⟨96, 128⟩ 0 1 ⟨48, 64⟩ ⟨0, 0⟩ false))
        (get_affine_transform ⟨48, 64⟩ ⟨96, 128⟩ 0 1 ⟨48, 64⟩ ⟨0, 0⟩ true)).1
      - p.1| ≤ 1/1000 ∧
    |(affine_transform
        (affine_transform p
          (get_affine_transform ⟨48, 64⟩ ⟨96, 128⟩ 0 1 ⟨48, 64⟩ ⟨0, 0⟩ false))
        (get_affine_transform ⟨48, 64⟩ ⟨96, 128⟩ 0 1 ⟨48, 64⟩ ⟨0, 0⟩ true)).2
      - p.2| ≤ 1/1000 := by
  have h1 : get_affine_transform ⟨48, 64⟩ ⟨96, 128⟩ 0 1 ⟨48, 64⟩ ⟨0, 0⟩ false
      = ⟨1/2, 0, 0, 0, 1/2, 0⟩ := by decide
  have h2 : get_affine_transform ⟨48, 64⟩ ⟨96, 128⟩ 0 1 ⟨48, 64⟩ ⟨0, 0⟩ true
      = ⟨2, 0, 0, 0, 2, 0⟩ := by decide
  rw [h1, h2]
  simp only [affine_transform]
  constructor <;> · ring_nf; norm_num

/-- C7, counterexample: the rank-5 tensor of shape (1, 1, 2, 2, 2) with 8
entries is processed by `get_max_pred` without any error — no rank
validation and no `InvalidInputShapeError` exist in the code; axis 3 is
silently taken as the width and the trailing axes are flattened. -/
theorem get_max_pred_dyn_cex :
    (get_max_pred_dyn [1, 1, 2, 2, 2] [0, 1, 0, 0, 2, 0, 0, 0]).isOk = true := by
  decide

/-- C7 (amended): the failure modes of `get_max_pred` are exactly the
shape accidents of its tensor operations, not a dedicated validation: a
well-formed 4D input with nonzero batch, joint and spatial sizes always
succeeds, and an input of rank below 4 always fails (an index error when
reading `shape[3]`); rank above 4 is NOT rejected (see the
counterexample). -/
theorem get_max_pred_dyn_spec (n j h w : ℕ) (data : List ℚ)
    (hnj : 0 < n * j) (hhw : 0 < h * w) (hlen : data.length = n * j * (h * w)) :
    (get_max_pred_dyn [n, j, h, w] data).isOk = true ∧
    ∀ (shape : List ℕ) (d : List ℚ), shape.length < 4 →
      (get_max_pred_dyn shape d).isOk = false := by
  constructor
  · have h0 : n * j ≠ 0 := Nat.pos_iff_ne_zero.mp hnj
    have h1 : ¬ data.length % (n * j) ≠ 0 := by
      rw [hlen]
      simp [Nat.mul_mod_right]
    have h2 : data.length / (n * j) = h * w := by
      rw [hlen]
      exact Nat.mul_div_cancel_left (h * w) hnj
    have h3 : h * w ≠ 0 := Nat.pos_iff_ne_zero.mp hhw
    simp only [get_max_pred_dyn, if_neg h0, if_neg h1, h2, if_neg h3]
    rfl
  · intro shape d hlt
    match shape with
    | [] => rfl
    | [_] => rfl
    | [_, _] => rfl
    | [_, _, _] => rfl
    | _ :: _ :: _ :: _ :: _ =>
      exfalso
      simp only [List.length_cons] at hlt
      omega

/-- C7 witness: the well-formed (1, 1, 2, 2) tensor with 4 entries is
processed successfully, and the rank-3 shape (1, 1, 2) fails. -/
theorem get_max_pred_dyn_spec_witness :
    (get_max_pred_dyn [1, 1, 2, 2] [0, 0, 0, 2]).isOk = true ∧
    (get_max_pred_dyn [1, 1, 2] [0, 0]).isOk = false :=
  ⟨(get_max_pred_dyn_spec 1 1 2 2 [0, 0, 0, 2] (by decide) (by decide)
      (by decide)).1,
   (get_max_pred_dyn_spec 1 1 2 2 [0, 0, 0, 2] (by decide) (by decide)
      (by decide)).2 [1, 1, 2] [0, 0] (by decide)⟩

/-- With the default zero shift, `get_affine_transform` reads its scale
argument only through the first component `scale[0]`. -/
theorem get_affine_transform_scale_x (center : Pt) (sn cs : ℚ) (osize : Pt)
    (inv : Bool) (s s' : Pt) (h : s.x = s'.x) :
    get_affine_transform center s sn cs osize ⟨0, 0⟩ inv =
      get_affine_transform center s' sn cs osize ⟨0, 0⟩ inv := by
  simp only [get_affine_transform, src_point0, src_point1, Pt.hmul, Pt.add,
    mul_zero, add_zero, h]

/-- The per-image transform-back loop is invariant under changing only the
second components of the scales. -/
theorem transform_zip_scale_x (H W : ℕ) :
    ∀ (coordss : List (List (ℚ × ℚ))) (centers scales scales' : List Pt),
      List.Forall₂ (fun a b : Pt => a.x = b.x) scales scales' →
      List.zipWith (fun cs_i (p : Pt × Pt) =>
          transform_preds cs_i p.1 p.2 ⟨(W : ℚ), (H : ℚ)⟩)
        coordss (centers.zip scales) =
      List.zipWith (fun cs_i (p : Pt × Pt) =>
          transform_preds cs_i p.1 p.2 ⟨(W : ℚ), (H : ℚ)⟩)
        coordss (centers.zip scales') := by
  intro coordss centers scales scales' hf
  induction hf generalizing coordss centers with
  | nil => rfl
  | @cons a b as bs hab _ ih =>
    cases centers with
    | nil => rfl
    | cons c cs =>
      cases coordss with
      | nil => rfl
      | cons d ds =>
        rw [List.zip_cons_cons, List.zip_cons_cons,
          List.zipWith_cons_cons, List.zipWith_cons_cons, ih ds cs]
        have he : transform_preds d c a ⟨(W : ℚ), (H : ℚ)⟩ =
            transform_preds d c b ⟨(W : ℚ), (H : ℚ)⟩ := by
          unfold transform_preds
          rw [get_affine_transform_scale_x c 0 1 ⟨(W : ℚ), (H : ℚ)⟩ true a b hab]
        rw [he]

/-- C8: with the default zero shift, the affine transform built by
`get_affine_transform` depends on the 2-vector scale only through its
first component; consequently the whole decode returns identical
image-space predictions when only the second scale components differ. -/
theorem decode_ignores_scale_y :
    (∀ (center : Pt) (sn cs : ℚ) (osize : Pt) (inv : Bool) (s s' : Pt),
      s.x = s'.x →
      get_affine_transform center s sn cs osize ⟨0, 0⟩ inv =
        get_affine_transform center s' sn cs osize ⟨0, 0⟩ inv) ∧
    (∀ (H W : ℕ) (hms : List (List (List (List ℚ))))
      (centers scales scales' : List Pt),
      List.Forall₂ (fun a b : Pt => a.x = b.x) scales scales' →
      get_final_preds H W hms centers scales =
        get_final_preds H W hms centers scales') := by
  refine ⟨fun center sn cs osize inv s s' h =>
    get_affine_transform_scale_x center sn cs osize inv s s' h, ?_⟩
  intro H W hms centers scales scales' hf
  simp only [get_final_preds]
  rw [transform_zip_scale_x H W _ centers scales scales' hf]

/-- C8 witness: two scale vectors sharing the first component 4 but with
second components 5 and 9 produce the same inverse transform and the same
decode output on a one-hot 2×2 single-joint batch. -/
theorem decode_ignores_scale_y_witness :
    get_affine_transform ⟨1, 2⟩ ⟨4, 5⟩ 0 1 ⟨3, 3⟩ ⟨0, 0⟩ true =
      get_affine_transform ⟨1, 2⟩ ⟨4, 9⟩ 0 1 ⟨3, 3⟩ ⟨0, 0⟩ true ∧
    get_final_preds 2 2 [[[[0, 1], [0, 0]]]] [⟨1, 2⟩] [⟨4, 5⟩] =
      get_final_preds 2 2 [[[[0, 1], [0, 0]]]] [⟨1, 2⟩] [⟨4, 9⟩] :=
  ⟨decode_ignores_scale_y.1 ⟨1, 2⟩ 0 1 ⟨3, 3⟩ true ⟨4, 5⟩ ⟨4, 9⟩ (by decide),
   decode_ignores_scale_y.2 2 2 [[[[0, 1], [0, 0]]]] [⟨1, 2⟩] [⟨4, 5⟩] [⟨4, 9⟩]
     (List.Forall₂.cons (by decide) List.Forall₂.nil)⟩

/-- C9: the decode pipeline, with each in-place array write modelled as an
update of the owning buffer in program order, leaves the input heatmap
batch, centers and scales untouched; all mutation lands in the
freshly-allocated coords/maxvals/preds buffers, which end up holding
exactly the values that the pure `get_final_preds` returns. -/
theorem decode_run_frame (H W : ℕ) (s : DecodeState) :
    (decode_run H W s).heatmaps = s.heatmaps ∧
    (decode_run H W s).centers = s.centers ∧
    (decode_run H W s).scales = s.scales ∧
    ((decode_run H W s).preds, (decode_run H W s).maxvals) =
      get_final_preds H W s.heatmaps s.centers s.scales :=
  ⟨rfl, rfl, rfl, rfl⟩

/-- C10: `_get_deconv_cfg` yields a defined configuration exactly for
kernel sizes 2, 3 and 4; every other kernel size reaches the `return`
statement with `padding`/`output_padding` unbound and fails. -/
theorem deconv_cfg_spec (k : ℤ) :
    ((k ≠ 2 ∧ k ≠ 3 ∧ k ≠ 4) → get_deconv_cfg k = none) ∧
    ((k = 2 ∨ k = 3 ∨ k = 4) → (get_deconv_cfg k).isSome = true) := by
  constructor
  · rintro ⟨h2, h3, h4⟩
    simp [get_deconv_cfg, h2, h3, h4]
  · rintro (rfl | rfl | rfl) <;> rfl

/-- C10 witness: kernel size 5 fails; kernel size 3 succeeds. -/
theorem deconv_cfg_spec_witness :
    get_deconv_cfg 5 = none ∧ (get_deconv_cfg 3).isSome = true :=
  ⟨(deconv_cfg_spec 5).1 (by decide),
   (deconv_cfg_spec 3).2 (Or.inr (Or.inl rfl))⟩
